import Mathlib

/-!
Shallow embedding of `src/market_pulse_patched.py` (Market Pulse Bot).

Modelling conventions:
* Prices and times of day are exact rationals (`ℚ`); the pandas/NumPy
  IEEE-754 special cases that the control flow of the program depends on
  (`x / 0 = +inf` for `x > 0`, `0 / 0 = NaN`, `NaN` rows removed by
  `dropna`) are made explicit branches (see `rsiRow`).
* A pandas `Series` of closes is a `List ℚ` (index order = time order).
* Python `round(x, 2)` is modelled as exact rounding of hundredths
  (`round2`); none of the verified statements touches a half-cent tie,
  which is the only place Python's round-half-even could differ.
* A provider call (`yf.download`) either yields a series or raises; this
  is an `Except Unit (List ℚ)`.  The Discord POST either yields a
  response `(status, text)` or raises: `Except Unit (Nat × String)`.
* Wall-clock instants in the exchange timezone are civil values: a day
  index (`ℤ`, with day `d` having Python weekday `d % 7`, so day 0 is
  a Monday) and a time of day in seconds (`ℚ`).
-/

namespace MarketPulse

/-! ## IndicatorEngine: `compute_rsi` (source lines 48–58) -/

/-- Aligned with `close.diff()` minus its leading `NaN`: `diff l` has the
successive differences `l[i+1] - l[i]`. -/
def diff : List ℚ → List ℚ
  | [] => []
  | [_] => []
  | a :: b :: rest => (b - a) :: diff (b :: rest)

/-- One entry of `gain = delta.where(delta > 0, 0.0)`. -/
def gainFn (d : ℚ) : ℚ := if 0 < d then d else 0

/-- One entry of `loss = -delta.where(delta < 0, 0.0)`. -/
def lossFn (d : ℚ) : ℚ := if d < 0 then -d else 0

/-- The gain series.  The leading `0` is the `NaN` of `close.diff()` at
index 0, which `delta.where(delta > 0, 0.0)` turns into `0.0` (as
`NaN > 0` is false). -/
def gainSeries (close : List ℚ) : List ℚ := 0 :: (diff close).map gainFn

/-- The loss series, with the same leading-`NaN` convention. -/
def lossSeries (close : List ℚ) : List ℚ := 0 :: (diff close).map lossFn

/-- All length-`p` contiguous windows of `xs`, in order of their start
index.  `rolling(window=p)` produces `NaN` until the window is full;
those `NaN` rows propagate to `NaN` oscillator rows and are removed by
`dropna()`, so only the full windows are material. -/
def windows (p : ℕ) : List ℚ → List (List ℚ)
  | [] => []
  | x :: xs => if (x :: xs).length < p then [] else ((x :: xs).take p) :: windows p xs

/-- `series.rolling(window=p).mean()`, restricted to the full windows. -/
def rollingMean (p : ℕ) (xs : List ℚ) : List ℚ :=
  (windows p xs).map (fun w => w.sum / (p : ℚ))

/-- One row of `rsi = 100 - (100 / (1 + avg_gain / avg_loss))` under the
IEEE-754 semantics the source relies on: for `l > 0` the row is finite;
for `l = 0 < g` the ratio is `+inf` and the row is exactly `100`; for
`l = 0 = g` the ratio is `NaN` (`0.0 / 0.0`), the row is `NaN`, and
`dropna()` removes it — modelled as `none`. -/
def rsiRow (g l : ℚ) : Option ℚ :=
  if 0 < l then some (100 - 100 / (1 + g / l))
  else if 0 < g then some 100
  else none

/-- Python `round(q)`: round to nearest integer, ties to the even
integer (banker's rounding, the semantics of Python's builtin `round`). -/
def pyRound (q : ℚ) : ℤ :=
  if 2 * q < 2 * (⌊q⌋ : ℚ) + 1 then ⌊q⌋
  else if 2 * (⌊q⌋ : ℚ) + 1 < 2 * q then ⌊q⌋ + 1
  else if ⌊q⌋ % 2 = 0 then ⌊q⌋ else ⌊q⌋ + 1

/-- Python `round(q, 2)` (exact; see module comment). -/
def round2 (q : ℚ) : ℚ := ((pyRound (100 * q) : ℤ) : ℚ) / 100

/-- The oscillator rows (`rsi` after `dropna` is `(rsiSeries ...).filterMap id`). -/
def rsiSeries (close : List ℚ) (period : ℕ) : List (Option ℚ) :=
  ((rollingMean period (gainSeries close)).zip (rollingMean period (lossSeries close))).map
    (fun p => rsiRow p.1 p.2)

/-- `compute_rsi` (source lines 48–58): guard for short input, then
`float(round(rsi.iloc[-1], 2)) if not rsi.empty else None` after
`rsi.dropna()`. -/
def compute_rsi (close : List ℚ) (period : ℕ) : Option ℚ :=
  if close.length < period + 1 then none
  else
    match ((rsiSeries close period).filterMap id).getLast? with
    | some v => some (round2 v)
    | none => none

/-! ## SnapshotFetcher: `fetch_snapshot` (source lines 60–82) -/

/-- A per-instrument snapshot (`snap` dict in the source).  Optional
fields are `none` when unavailable. -/
structure Snapshot where
  ticker : String
  last : Option ℚ
  chg_pct : Option ℚ
  rsi : Option ℚ
deriving DecidableEq, Repr

/-- `fetch_snapshot`: the whole body sits in one `try`.  If the first
download raises, nothing has been assigned and the snapshot is returned
with every field `none`; if the second raises, `last`/`chg_pct` keep the
values already assigned and `rsi` stays `none`. -/
def fetch_snapshot (ticker : String) (oneMin fifteenMin : Except Unit (List ℚ)) : Snapshot :=
  match oneMin with
  | .error _ => { ticker := ticker, last := none, chg_pct := none, rsi := none }
  | .ok df1 =>
    let last := df1.getLast?.map (fun c => round2 c)
    let chg_pct :=
      if 1 < df1.length then
        match df1.getLast?, df1[df1.length - 2]? with
        | some lastc, some prev =>
          if prev ≠ 0 then some (round2 ((lastc - prev) / prev * 100)) else none
        | _, _ => none
      else none
    match fifteenMin with
    | .error _ => { ticker := ticker, last := last, chg_pct := chg_pct, rsi := none }
    | .ok df2 =>
      { ticker := ticker, last := last, chg_pct := chg_pct,
        rsi := if df2.isEmpty then none else compute_rsi df2 14 }

/-! ## MessageFormatter: `build_message` (source lines 84–98) -/

/-- Python format spec `{s:>w}`: left-pad with spaces to width `w`. -/
def padTo (s : String) (w : ℕ) : String :=
  String.mk (List.replicate (w - s.length) ' ') ++ s

/-- Python format spec `{s:<w}`: right-pad with spaces to width `w`. -/
def padEnd (s : String) (w : ℕ) : String :=
  s ++ String.mk (List.replicate (w - s.length) ' ')

/-- Python `f"{x:.2f}"` on an exact rational (see module comment on
rounding ties). -/
def fmt2 (q : ℚ) : String :=
  let c : ℤ := pyRound (100 * q)
  let a : ℕ := c.natAbs
  (if c < 0 then "-" else "") ++ Nat.repr (a / 100) ++ "." ++
    (if a % 100 < 10 then "0" else "") ++ Nat.repr (a % 100)

/-- One table row (the loop body of `build_message`): each field renders
via `f"{v:.2f}"` when it is a number and as the literal `"n/a"` when it
is `None`. -/
def renderRow (s : Snapshot) : String :=
  let last := match s.last with | some v => fmt2 v | none => "n/a"
  let chg := match s.chg_pct with | some v => fmt2 v | none => "n/a"
  let rsi := match s.rsi with | some v => fmt2 v | none => "n/a"
  padEnd s.ticker 8 ++ " " ++ padTo last 9 ++ " " ++ padTo chg 7 ++ " " ++ padTo rsi 8

/-- The six lines appended before the table rows (title, timestamp line,
blank line, code fence, column header, dash rule). -/
def header_lines (now : String) : List String :=
  ["📊 **Market Pulse Bot — Snapshot**",
   "_Generated at " ++ now ++ " local_",
   "",
   "```",
   padEnd "Ticker" 8 ++ " " ++ padTo "Last" 9 ++ " " ++ padTo "Δ%" 7 ++ " " ++ padTo "RSI(14)" 8,
   String.mk (List.replicate 34 '-')]

/-- `build_message`: the `lines` list (header, one row per snapshot in
input order, closing fence) joined by `"\n"`.  The generation timestamp
is passed in as `now`. -/
def build_message (now : String) (snaps : List Snapshot) : String :=
  String.intercalate "\n" (header_lines now ++ snaps.map renderRow ++ ["```"])

/-! ## Notifier: `post_discord` (source lines 100–107) -/

/-- `post_discord`: `true` iff the POST returned and
`200 <= r.status_code < 300`; any raised exception is caught and yields
`false`. -/
def post_discord (resp : Except Unit (ℕ × String)) : Bool :=
  match resp with
  | .ok r => if 200 ≤ r.1 ∧ r.1 < 300 then true else false
  | .error _ => false

/-- The two provider-call outcomes for one instrument in one tick. -/
structure FetchData where
  oneMin : Except Unit (List ℚ)
  fifteenMin : Except Unit (List ℚ)

/-- `run_once` (source lines 109–113): fetch every instrument in order,
build the message, post it.  Returns the rendered message and the
delivery outcome. -/
def run_once (now : String) (inputs : List (String × FetchData))
    (resp : Except Unit (ℕ × String)) : String × Bool :=
  let snaps := inputs.map (fun p => fetch_snapshot p.1 p.2.oneMin p.2.fifteenMin)
  let msg := build_message now snaps
  (msg, post_discord resp)

/-! ## MarketScheduler (source lines 116–118 and 164–191) -/

/-- A civil instant in the exchange timezone: `day` is a day index whose
Python weekday is `day.emod 7` (day 0 is a Monday), `tod` is the time of
day in seconds. -/
structure ETDateTime where
  day : ℤ
  tod : ℚ
deriving DecidableEq

/-- Python `datetime.weekday()`: Monday = 0 … Sunday = 6. -/
def weekday (d : ℤ) : ℤ := d % 7

/-- The loop `while next_day.weekday() >= 5: next_day += timedelta(days=1)`. -/
def skipWeekend (d : ℤ) : ℤ :=
  if 5 ≤ d % 7 then skipWeekend (d + 1) else d
termination_by (if 5 ≤ d % 7 then 7 - d % 7 else 0).toNat
decreasing_by
  split <;> omega

/-- `minutes_since_open` (source lines 116–118): difference, in minutes,
between the current time of day and the configured open time. -/
def minutes_since_open (now : ETDateTime) (openTod : ℚ) : ℚ :=
  (now.tod - openTod) / 60

/-- One loop iteration decides either to run now (and how long to sleep
afterwards) or to sleep until a next-open instant. -/
inductive TickDecision where
  | run (intervalMinutes : ℕ)
  | waitUntil (t : ETDateTime)
deriving DecidableEq

/-- One iteration of the main loop (source lines 164–191): inside
`[open, close]` (inclusive time-of-day comparison) run a tick whose
follow-up sleep is `early_int` while `minutes_since_open ≤ early_dur`
and `later_int` after; past close, wait until tomorrow's open advanced
past any weekend days; before open, wait until today's open. -/
def tick (now : ETDateTime) (openTod closeTod : ℚ) (early_int later_int early_dur : ℕ) :
    TickDecision :=
  if openTod ≤ now.tod ∧ now.tod ≤ closeTod then
    .run (if minutes_since_open now openTod ≤ (early_dur : ℚ) then early_int else later_int)
  else if closeTod < now.tod then
    .waitUntil { day := skipWeekend (now.day + 1), tod := openTod }
  else
    .waitUntil { day := now.day, tod := openTod }

/-! ## Claim-side helper definitions

The final fully-windowed row of the oscillator is computed from the last
`period` deltas; these definitions name its average gain and loss (they
are the `avg_gain`/`avg_loss` values of the last rolling window, see
`rollingMean_getLast?` below). -/

/-- The last `period` successive deltas of a series. -/
def lastWindowDeltas (close : List ℚ) (period : ℕ) : List ℚ :=
  (diff close).drop ((diff close).length - period)

/-- Average gain over the final trailing window of `period` deltas. -/
def finalAvgGain (close : List ℚ) (period : ℕ) : ℚ :=
  ((lastWindowDeltas close period).map gainFn).sum / (period : ℚ)

/-- Average loss over the final trailing window of `period` deltas. -/
def finalAvgLoss (close : List ℚ) (period : ℕ) : ℚ :=
  ((lastWindowDeltas close period).map lossFn).sum / (period : ℚ)

/-- Number of (non-overlapping) occurrences of the token `n/a` in a
character list. -/
def countNA : List Char → ℕ
  | [] => 0
  | c :: rest => (if c = 'n' ∧ rest.take 2 = ['/', 'a'] then 1 else 0) + countNA rest

/-! ## Shared lemmas about the embedding -/

theorem diff_length : ∀ l : List ℚ, (diff l).length = l.length - 1
  | [] => rfl
  | [_] => rfl
  | a :: b :: rest => by
    simpa [diff] using diff_length (b :: rest)

theorem gainFn_nonneg (d : ℚ) : 0 ≤ gainFn d := by
  unfold gainFn; split <;> linarith

theorem lossFn_nonneg (d : ℚ) : 0 ≤ lossFn d := by
  unfold lossFn; split <;> linarith

theorem gainSeries_nonneg (close : List ℚ) : ∀ x ∈ gainSeries close, 0 ≤ x := by
  intro x hx
  rcases List.mem_cons.mp hx with h | h
  · simp [h]
  · rcases List.mem_map.mp h with ⟨d, _, rfl⟩
    exact gainFn_nonneg d

theorem lossSeries_nonneg (close : List ℚ) : ∀ x ∈ lossSeries close, 0 ≤ x := by
  intro x hx
  rcases List.mem_cons.mp hx with h | h
  · simp [h]
  · rcases List.mem_map.mp h with ⟨d, _, rfl⟩
    exact lossFn_nonneg d

theorem gainSeries_length (close : List ℚ) :
    (gainSeries close).length = (diff close).length + 1 := by
  simp [gainSeries]

theorem lossSeries_length (close : List ℚ) :
    (lossSeries close).length = (diff close).length + 1 := by
  simp [lossSeries]

theorem windows_length (p : ℕ) (hp : 1 ≤ p) :
    ∀ xs : List ℚ, (windows p xs).length = xs.length + 1 - p := by
  intro xs
  induction xs with
  | nil => simp [windows]; omega
  | cons x xs ih =>
    by_cases h : (x :: xs).length < p
    · rw [windows, if_pos h]
      simp at h ⊢
      omega
    · rw [windows, if_neg h]
      simp at h ⊢
      omega

theorem windows_getElem (p : ℕ) :
    ∀ (xs : List ℚ) (j : ℕ) (h : j < (windows p xs).length),
      (windows p xs)[j] = (xs.drop j).take p := by
  intro xs
  induction xs with
  | nil => intro j h; simp [windows] at h
  | cons x xs ih =>
    intro j h
    by_cases hc : (x :: xs).length < p
    · rw [windows, if_pos hc] at h; simp at h
    · cases j with
      | zero =>
        simp only [windows, if_neg hc, List.getElem_cons_zero, List.drop_zero]
      | succ j =>
        have h' : j < (windows p xs).length := by
          rw [windows, if_neg hc] at h
          simpa using h
        have hstep : (windows p (x :: xs))[j + 1] = (windows p xs)[j] := by
          simp only [windows, if_neg hc]
          rw [List.getElem_cons_succ]
        rw [hstep, ih j h']
        simp

theorem subset_of_mem_windows (p : ℕ) (xs w : List ℚ) (hw : w ∈ windows p xs) : w ⊆ xs := by
  rcases List.mem_iff_getElem.mp hw with ⟨j, hj, hjw⟩
  rw [windows_getElem p xs j hj] at hjw
  rw [← hjw]
  exact (List.take_subset _ _).trans (List.drop_subset _ _)

theorem windows_getLast? (p : ℕ) (hp : 1 ≤ p) (xs : List ℚ) (hl : p ≤ xs.length) :
    (windows p xs).getLast? = some (xs.drop (xs.length - p)) := by
  have hlen := windows_length p hp xs
  have hidx : (windows p xs).length - 1 < (windows p xs).length := by omega
  rw [List.getLast?_eq_getElem?, List.getElem?_eq_getElem hidx]
  rw [windows_getElem p xs ((windows p xs).length - 1) hidx]
  have h1 : (windows p xs).length - 1 = xs.length - p := by omega
  rw [h1]
  congr 1
  apply List.take_of_length_le
  rw [List.length_drop]
  omega

theorem getLast?_cons_of_ne_nil {α : Type} (a : α) (l : List α) (h : l ≠ []) :
    (a :: l).getLast? = l.getLast? := by
  cases l with
  | nil => exact absurd rfl h
  | cons b l' => rw [List.getLast?_cons_cons]

theorem zip_getLast? :
    ∀ (l1 l2 : List ℚ) (a b : ℚ), l1.length = l2.length →
      l1.getLast? = some a → l2.getLast? = some b →
      (l1.zip l2).getLast? = some (a, b) := by
  intro l1
  induction l1 with
  | nil => intro l2 a b _ ha _; simp at ha
  | cons x l1 ih =>
    intro l2 a b hlen ha hb
    cases l2 with
    | nil => simp at hlen
    | cons y l2 =>
      cases l1 with
      | nil =>
        cases l2 with
        | nil =>
          simp at ha hb
          simp [ha, hb]
        | cons _ _ => simp at hlen
      | cons x' l1' =>
        cases l2 with
        | nil => simp at hlen
        | cons y' l2' =>
          rw [List.getLast?_cons_cons] at ha hb
          have hlen' : (x' :: l1').length = (y' :: l2').length := by
            simpa using hlen
          have hih := ih (y' :: l2') a b hlen' ha hb
          rw [List.zip_cons_cons] at hih ⊢
          rw [List.zip_cons_cons]
          rw [List.getLast?_cons_cons]
          exact hih

theorem filterMap_id_getLast? :
    ∀ (l : List (Option ℚ)) (v : ℚ), l.getLast? = some (some v) →
      (l.filterMap id).getLast? = some v := by
  intro l
  induction l with
  | nil => intro v h; simp at h
  | cons o l ih =>
    intro v h
    cases l with
    | nil =>
      simp at h
      subst h
      simp
    | cons o' l' =>
      rw [List.getLast?_cons_cons] at h
      have h2 := ih v h
      cases o with
      | none =>
        rw [List.filterMap_cons]
        exact h2
      | some a =>
        have hred : List.filterMap id (some a :: o' :: l') = a :: List.filterMap id (o' :: l') :=
          rfl
        rw [hred]
        have hne : (o' :: l').filterMap id ≠ [] := by
          intro hnil
          rw [hnil] at h2
          simp at h2
        rw [getLast?_cons_of_ne_nil a _ hne]
        exact h2

theorem mem_filterMap_id_of_isSome (l : List (Option ℚ)) (o : Option ℚ) (ho : o ∈ l)
    (hs : o.isSome) : l.filterMap id ≠ [] := by
  rcases Option.isSome_iff_exists.mp hs with ⟨v, rfl⟩
  intro hnil
  have : v ∈ l.filterMap id := List.mem_filterMap.mpr ⟨some v, ho, rfl⟩
  rw [hnil] at this
  simp at this

theorem rsiRow_bounds (g l v : ℚ) (hg : 0 ≤ g) (hl : 0 ≤ l) (h : rsiRow g l = some v) :
    0 ≤ v ∧ v ≤ 100 := by
  unfold rsiRow at h
  split at h
  · rename_i hlp
    have hrs : 0 ≤ g / l := div_nonneg hg hl
    have h2 : 0 < 1 + g / l := by linarith
    have hle : 100 / (1 + g / l) ≤ 100 := by
      rw [div_le_iff h2]
      nlinarith
    have hpos : 0 < 100 / (1 + g / l) := by positivity
    have hv : 100 - 100 / (1 + g / l) = v := by
      simpa using h
    constructor <;> linarith
  · split at h
    · have hv : (100 : ℚ) = v := by simpa using h
      constructor <;> linarith
    · exact absurd h (by simp)

theorem rsiRow_isSome_of_pos (g l : ℚ) (h : 0 < g ∨ 0 < l) : (rsiRow g l).isSome := by
  unfold rsiRow
  rcases h with hg | hl
  · split
    · simp
    · simp [hg]
  · rw [if_pos hl]
    simp

theorem rsiRow_none_of_zero : rsiRow 0 0 = none := by
  norm_num [rsiRow]

theorem pyRound_nonneg (q : ℚ) (hq : 0 ≤ q) : 0 ≤ pyRound q := by
  have h0 : (0:ℤ) ≤ ⌊q⌋ := Int.floor_nonneg.mpr hq
  unfold pyRound
  split
  · exact h0
  · split
    · omega
    · split
      · exact h0
      · omega

theorem pyRound_le_of_le (q : ℚ) (n : ℤ) (h : q ≤ n) : pyRound q ≤ n := by
  have hf : ⌊q⌋ ≤ n := by
    have : (⌊q⌋ : ℚ) ≤ n := le_trans (Int.floor_le q) h
    exact_mod_cast this
  unfold pyRound
  split
  · exact hf
  · rename_i h1
    push_neg at h1
    have hq2 : (⌊q⌋ : ℚ) < n := by linarith
    have hlt : ⌊q⌋ < n := by exact_mod_cast hq2
    split
    · omega
    · split
      · exact hf
      · omega

theorem round2_nonneg (q : ℚ) (hq : 0 ≤ q) : 0 ≤ round2 q := by
  unfold round2
  have h := pyRound_nonneg (100 * q) (by positivity)
  have hc : (0:ℚ) ≤ ((pyRound (100 * q) : ℤ) : ℚ) := by exact_mod_cast h
  exact div_nonneg hc (by norm_num)

theorem round2_le_100 (q : ℚ) (hq : q ≤ 100) : round2 q ≤ 100 := by
  unfold round2
  have h : 100 * q ≤ ((10000 : ℤ) : ℚ) := by push_cast; linarith
  have h2 := pyRound_le_of_le (100 * q) 10000 h
  rw [div_le_iff (by norm_num : (0:ℚ) < 100)]
  have hc : ((pyRound (100 * q) : ℤ) : ℚ) ≤ ((10000 : ℤ) : ℚ) := by exact_mod_cast h2
  calc ((pyRound (100 * q) : ℤ) : ℚ) ≤ ((10000 : ℤ) : ℚ) := hc
  _ = 100 * 100 := by norm_num

theorem countNA_append_space (l r : List Char) :
    countNA (l ++ ' ' :: r) = countNA l + countNA (' ' :: r) := by
  induction l with
  | nil => simp [countNA]
  | cons c l ih =>
    rw [List.cons_append]
    have hL : countNA (c :: (l ++ ' ' :: r))
        = (if c = 'n' ∧ (l ++ ' ' :: r).take 2 = ['/', 'a'] then 1 else 0)
          + countNA (l ++ ' ' :: r) := rfl
    have hR : countNA (c :: l)
        = (if c = 'n' ∧ l.take 2 = ['/', 'a'] then 1 else 0) + countNA l := rfl
    rw [hL, hR, ih]
    have hiff : ((l ++ ' ' :: r).take 2 = ['/', 'a']) ↔ (l.take 2 = ['/', 'a']) := by
      cases l with
      | nil => simp
      | cons x l' =>
        cases l' with
        | nil => simp
        | cons y l'' => simp
    rw [if_congr (and_congr_right (fun _ => hiff)) rfl rfl]
    omega

theorem countNA_replicate_space (k : ℕ) (r : List Char) :
    countNA (List.replicate k ' ' ++ r) = countNA r := by
  induction k with
  | zero => simp
  | succ m ih =>
    rw [List.replicate_succ, List.cons_append]
    have hL : countNA (' ' :: (List.replicate m ' ' ++ r))
        = (if ' ' = 'n' ∧ (List.replicate m ' ' ++ r).take 2 = ['/', 'a'] then 1 else 0)
          + countNA (List.replicate m ' ' ++ r) := rfl
    rw [hL, ih]
    simp

theorem skipWeekend_of_weekday_lt (d : ℤ) (h : d % 7 < 5) : skipWeekend d = d := by
  rw [skipWeekend]
  rw [if_neg (by omega)]

theorem skipWeekend_of_weekday_ge (d : ℤ) (h : 5 ≤ d % 7) :
    skipWeekend d = skipWeekend (d + 1) := by
  conv_lhs => rw [skipWeekend]
  rw [if_pos h]

theorem skipWeekend_friday (d : ℤ) (h : d % 7 = 4) : skipWeekend (d + 1) = d + 3 := by
  rw [skipWeekend_of_weekday_ge (d + 1) (by omega)]
  rw [show d + 1 + 1 = d + 2 by ring]
  rw [skipWeekend_of_weekday_ge (d + 2) (by omega)]
  rw [show d + 2 + 1 = d + 3 by ring]
  exact skipWeekend_of_weekday_lt (d + 3) (by omega)

theorem padEnd_data (s : String) (w : ℕ) :
    (padEnd s w).data = s.data ++ List.replicate (w - s.length) ' ' := rfl

theorem padTo_data (s : String) (w : ℕ) :
    (padTo s w).data = List.replicate (w - s.length) ' ' ++ s.data := rfl

theorem rollingMean_nonneg (p : ℕ) (xs : List ℚ) (hxs : ∀ x ∈ xs, 0 ≤ x) :
    ∀ m ∈ rollingMean p xs, 0 ≤ m := by
  intro m hm
  rcases List.mem_map.mp hm with ⟨w, hw, rfl⟩
  apply div_nonneg
  · apply List.sum_nonneg
    intro x hx
    exact hxs x (subset_of_mem_windows p xs w hw hx)
  · exact_mod_cast Nat.zero_le p

theorem rollingMean_length (p : ℕ) (xs : List ℚ) :
    (rollingMean p xs).length = (windows p xs).length := by
  simp [rollingMean]

theorem rollingMean_getLast? (p : ℕ) (hp : 1 ≤ p) (xs : List ℚ) (hl : p ≤ xs.length) :
    (rollingMean p xs).getLast? = some ((xs.drop (xs.length - p)).sum / (p : ℚ)) := by
  unfold rollingMean
  rw [List.getLast?_map, windows_getLast? p hp xs hl]
  rfl

theorem rollingMean_getElem (p : ℕ) (xs : List ℚ) (j : ℕ)
    (h : j < (rollingMean p xs).length) :
    (rollingMean p xs)[j] = (((xs.drop j).take p).sum / (p : ℚ)) := by
  unfold rollingMean at h ⊢
  rw [List.getElem_map]
  rw [windows_getElem]

theorem gainSeries_lastWindow (close : List ℚ) (period : ℕ) (h : period + 1 ≤ close.length) :
    (gainSeries close).drop ((gainSeries close).length - period)
      = (lastWindowDeltas close period).map gainFn := by
  have hD := diff_length close
  unfold gainSeries lastWindowDeltas
  have hlen : ((0 : ℚ) :: (diff close).map gainFn).length = (diff close).length + 1 := by simp
  rw [hlen]
  have h1 : (diff close).length + 1 - period = ((diff close).length - period) + 1 := by omega
  rw [h1, List.drop_succ_cons]
  rw [List.map_drop]

theorem lossSeries_lastWindow (close : List ℚ) (period : ℕ) (h : period + 1 ≤ close.length) :
    (lossSeries close).drop ((lossSeries close).length - period)
      = (lastWindowDeltas close period).map lossFn := by
  have hD := diff_length close
  unfold lossSeries lastWindowDeltas
  have hlen : ((0 : ℚ) :: (diff close).map lossFn).length = (diff close).length + 1 := by simp
  rw [hlen]
  have h1 : (diff close).length + 1 - period = ((diff close).length - period) + 1 := by omega
  rw [h1, List.drop_succ_cons]
  rw [List.map_drop]

theorem rsiSeries_getLast? (close : List ℚ) (period : ℕ) (hp : 1 ≤ period)
    (hl : period + 1 ≤ close.length) :
    (rsiSeries close period).getLast? =
      some (rsiRow (finalAvgGain close period) (finalAvgLoss close period)) := by
  unfold rsiSeries
  rw [List.getLast?_map]
  have hD := diff_length close
  have hg_len := gainSeries_length close
  have hl_len := lossSeries_length close
  have hpg : period ≤ (gainSeries close).length := by omega
  have hpl : period ≤ (lossSeries close).length := by omega
  have hlens : (rollingMean period (gainSeries close)).length
      = (rollingMean period (lossSeries close)).length := by
    rw [rollingMean_length, rollingMean_length,
      windows_length period hp, windows_length period hp]
    omega
  have hzip := zip_getLast? (rollingMean period (gainSeries close))
    (rollingMean period (lossSeries close)) _ _ hlens
    (rollingMean_getLast? period hp _ hpg) (rollingMean_getLast? period hp _ hpl)
  rw [hzip]
  rw [gainSeries_lastWindow close period hl, lossSeries_lastWindow close period hl] at hzip ⊢
  rfl

theorem rsiSeries_length (close : List ℚ) (p : ℕ) :
    (rsiSeries close p).length = min ((rollingMean p (gainSeries close)).length)
      ((rollingMean p (lossSeries close)).length) := by
  simp [rsiSeries]

theorem rsiSeries_getElem (close : List ℚ) (p : ℕ) (j : ℕ)
    (h1 : j < (rollingMean p (gainSeries close)).length)
    (h2 : j < (rollingMean p (lossSeries close)).length)
    (h : j < (rsiSeries close p).length) :
    (rsiSeries close p)[j] = rsiRow ((rollingMean p (gainSeries close))[j])
      ((rollingMean p (lossSeries close))[j]) := by
  unfold rsiSeries at h ⊢
  rw [List.getElem_map, List.getElem_zip]

/-- C5: for a current time past today's close on a Friday, the scheduler's
computed next-open instant is the following Monday (three days later,
weekday 0) at the configured open time, with Saturday and Sunday skipped. -/
theorem c5_weekend_skip (now : ETDateTime) (openTod closeTod : ℚ)
    (early_int later_int early_dur : ℕ)
    (hfri : weekday now.day = 4) (hpast : closeTod < now.tod) :
    tick now openTod closeTod early_int later_int early_dur
      = .waitUntil { day := now.day + 3, tod := openTod }
    ∧ weekday (now.day + 3) = 0 := by
  constructor
  · unfold tick
    rw [if_neg (fun h => (not_le.mpr hpast) h.2)]
    rw [if_pos hpast]
    have hskip := skipWeekend_friday now.day (by simpa [weekday] using hfri)
    rw [hskip]
  · unfold weekday at hfri ⊢
    omega

theorem c5_weekend_skip_witness :
    tick { day := 4, tod := 61200 } 34200 57600 30 60 150
      = .waitUntil { day := 7, tod := 34200 } :=
  (c5_weekend_skip { day := 4, tod := 61200 } 34200 57600 30 60 150 (by decide) (by norm_num)).1

/-- C6: during an active tick the polling interval is `early_int` when
minutes since open are at most `early_dur` and `later_int` otherwise. -/
theorem c6_phase_selection (now : ETDateTime) (openTod closeTod : ℚ)
    (early_int later_int early_dur : ℕ)
    (h1 : openTod ≤ now.tod) (h2 : now.tod ≤ closeTod) :
    (minutes_since_open now openTod ≤ (early_dur : ℚ) →
        tick now openTod closeTod early_int later_int early_dur = .run early_int)
    ∧ ((early_dur : ℚ) < minutes_since_open now openTod →
        tick now openTod closeTod early_int later_int early_dur = .run later_int) := by
  unfold tick
  rw [if_pos ⟨h1, h2⟩]
  constructor
  · intro h; rw [if_pos h]
  · intro h; rw [if_neg (not_le.mpr h)]

theorem c6_phase_selection_witness :
    tick { day := 0, tod := 43140 } 34200 57600 30 60 150 = .run 30
    ∧ tick { day := 0, tod := 43260 } 34200 57600 30 60 150 = .run 60 := by
  constructor
  · exact (c6_phase_selection { day := 0, tod := 43140 } 34200 57600 30 60 150
      (by norm_num) (by norm_num)).1 (by norm_num [minutes_since_open])
  · exact (c6_phase_selection { day := 0, tod := 43260 } 34200 57600 30 60 150
      (by norm_num) (by norm_num)).2 (by norm_num [minutes_since_open])

/-- C9: the notifier reports success exactly for a 2xx response status; a
non-2xx status or a transport exception yields `false`, and no exception
escapes the tick (`run_once` always returns, carrying the notifier
outcome). -/
theorem c9_notifier_2xx :
    (∀ resp : Except Unit (ℕ × String),
      post_discord resp = true
        ↔ ∃ code text, resp = Except.ok (code, text) ∧ 200 ≤ code ∧ code < 300)
    ∧ (∀ now inputs resp, (run_once now inputs resp).2 = post_discord resp) := by
  constructor
  · intro resp
    constructor
    · intro h
      match resp with
      | .error _ => simp [post_discord] at h
      | .ok (code, text) =>
        by_cases hc : 200 ≤ code ∧ code < 300
        · exact ⟨code, text, rfl, hc.1, hc.2⟩
        · simp [post_discord, hc] at h
    · rintro ⟨code, text, rfl, hc1, hc2⟩
      simp [post_discord, hc1, hc2]
  · intro now inputs resp
    rfl

theorem renderRow_all_none (t : String) :
    renderRow { ticker := t, last := none, chg_pct := none, rsi := none }
      = padEnd t 8 ++ " " ++ padTo "n/a" 9 ++ " " ++ padTo "n/a" 7 ++ " " ++ padTo "n/a" 8 := rfl

theorem countNA_renderRow_all_none (t : String) :
    countNA (renderRow { ticker := t, last := none, chg_pct := none, rsi := none }).data
      = countNA t.data + 3 := by
  rw [renderRow_all_none]
  have hdata : (padEnd t 8 ++ " " ++ padTo "n/a" 9 ++ " " ++ padTo "n/a" 7 ++ " "
      ++ padTo "n/a" 8).data
      = t.data ++ (List.replicate (8 - t.length) ' '
        ++ ' ' :: ((padTo "n/a" 9).data ++ ' ' :: ((padTo "n/a" 7).data
        ++ ' ' :: (padTo "n/a" 8).data))) := by
    simp only [String.data_append, padEnd_data, List.append_assoc, List.cons_append,
      List.nil_append]
  rw [hdata]
  obtain ⟨S, hS⟩ : ∃ S, List.replicate (8 - t.length) ' '
      ++ ' ' :: ((padTo "n/a" 9).data ++ ' ' :: ((padTo "n/a" 7).data
      ++ ' ' :: (padTo "n/a" 8).data)) = ' ' :: S := by
    cases h : 8 - t.length with
    | zero =>
      refine ⟨(padTo "n/a" 9).data ++ ' ' :: ((padTo "n/a" 7).data
        ++ ' ' :: (padTo "n/a" 8).data), ?_⟩
      simp
    | succ m =>
      refine ⟨List.replicate m ' ' ++ ' ' :: ((padTo "n/a" 9).data
        ++ ' ' :: ((padTo "n/a" 7).data ++ ' ' :: (padTo "n/a" 8).data)), ?_⟩
      rw [List.replicate_succ, List.cons_append]
  rw [hS, countNA_append_space, ← hS, countNA_replicate_space]
  have hc : countNA (' ' :: ((padTo "n/a" 9).data ++ ' ' :: ((padTo "n/a" 7).data
      ++ ' ' :: (padTo "n/a" 8).data))) = 3 := by decide
  rw [hc]

/-- C8: the rendered message is the newline-join of the six header lines,
exactly one rendered row per snapshot in input order, and the closing
code fence; an unavailable optional field renders as the literal token
"n/a" (never blank, never zero), and a snapshot whose three optional
fields are all unavailable contributes exactly three "n/a" tokens in its
row beyond any occurrences inside its ticker text. -/
theorem c8_rows_and_na :
    (∀ now snaps, build_message now snaps
        = String.intercalate "\n" (header_lines now ++ snaps.map renderRow ++ ["```"])
      ∧ (header_lines now).length = 6
      ∧ (snaps.map renderRow).length = snaps.length
      ∧ ∀ (i : ℕ) (h : i < snaps.length), (snaps.map renderRow).get
          ⟨i, by simpa using h⟩ = renderRow (snaps.get ⟨i, h⟩))
    ∧ (∀ t, countNA
        (renderRow { ticker := t, last := none, chg_pct := none, rsi := none }).data
        = countNA t.data + 3) := by
  refine ⟨fun now snaps => ⟨rfl, rfl, by simp, fun i h => ?_⟩, countNA_renderRow_all_none⟩
  simp

theorem c8_rows_and_na_witness :
    countNA
      (renderRow { ticker := "SPY", last := none, chg_pct := none, rsi := none }).data
      = 3 := by
  have h := c8_rows_and_na.2 "SPY"
  rw [h]
  decide

theorem fetch_snapshot_error_all_none (t : String) (r2 : Except Unit (List ℚ)) :
    fetch_snapshot t (.error ()) r2
      = { ticker := t, last := none, chg_pct := none, rsi := none } := rfl

theorem fetch_snapshot_ok_last (t : String) (df1 : List ℚ) (r2 : Except Unit (List ℚ)) :
    (fetch_snapshot t (.ok df1) r2).last = df1.getLast?.map (fun c => round2 c) := by
  cases r2 <;> rfl

theorem fetch_snapshot_rsi_of_error (t : String) (df1 : List ℚ) :
    (fetch_snapshot t (.ok df1) (.error ())).rsi = none := by
  rfl

theorem fetch_snapshot_ok_chg (t : String) (df1 : List ℚ) (r2 : Except Unit (List ℚ)) :
    (fetch_snapshot t (.ok df1) r2).chg_pct
      = if 1 < df1.length then
          match df1.getLast?, df1[df1.length - 2]? with
          | some lastc, some prev =>
            if prev ≠ 0 then some (round2 ((lastc - prev) / prev * 100)) else none
          | _, _ => none
        else none := by
  cases r2 <;> rfl

/-- C4 counterexample: an instrument whose (second) provider call fails
still yields a snapshot with an available `last` field, so a provider
failure does not make all the snapshot's fields unavailable. -/
theorem c4_partial_failure_cex :
    (fetch_snapshot "SPY" (Except.ok [100, 105]) (Except.error ())).last = some 105 := by
  rw [fetch_snapshot_ok_last]
  norm_num [round2, pyRound]

/-- C4 (amended): a failing first provider call yields an all-unavailable
snapshot; a failing second call leaves the oscillator field unavailable
while keeping the fields already derived; in all cases no exception
propagates and every instrument of the tick contributes exactly one
rendered row, in input order, to the message. -/
theorem c4_failure_containment :
    (∀ (t : String) (r2 : Except Unit (List ℚ)),
      fetch_snapshot t (.error ()) r2
        = { ticker := t, last := none, chg_pct := none, rsi := none })
    ∧ (∀ (t : String) (df1 : List ℚ),
      (fetch_snapshot t (.ok df1) (.error ())).rsi = none)
    ∧ (∀ now (inputs : List (String × FetchData)) resp,
      (run_once now inputs resp).1
        = build_message now
            (inputs.map (fun p => fetch_snapshot p.1 p.2.oneMin p.2.fifteenMin))
      ∧ (inputs.map (fun p => fetch_snapshot p.1 p.2.oneMin p.2.fifteenMin)).length
          = inputs.length) := by
  refine ⟨fun t r2 => rfl, fun t df1 => rfl, fun now inputs resp => ⟨?_, by simp⟩⟩
  rfl

/-- C7 counterexample: the snapshot's `last` field is the most recent
close rounded to 2 decimals, not the close itself. -/
theorem c7_last_rounded_cex :
    (fetch_snapshot "SPY" (Except.ok [1006 / 1000]) (Except.error ())).last = some (101 / 100)
    ∧ (101 : ℚ) / 100 ≠ 1006 / 1000 := by
  constructor
  · rw [fetch_snapshot_ok_last]
    norm_num [round2, pyRound]
  · norm_num

/-- C7 (amended): `last` is the most recent close rounded to 2 decimals;
`chg_pct` is (latest − previous)/previous × 100 rounded to 2 decimals
when the series has at least two points and the previous close is
nonzero, and unavailable otherwise. -/
theorem c7_last_and_change (t : String) (closes : List ℚ) (c : ℚ)
    (r2 : Except Unit (List ℚ)) (hlast : closes.getLast? = some c) :
    (fetch_snapshot t (.ok closes) r2).last = some (round2 c)
    ∧ (∀ prev, 1 < closes.length → closes[closes.length - 2]? = some prev → prev ≠ 0 →
        (fetch_snapshot t (.ok closes) r2).chg_pct
          = some (round2 ((c - prev) / prev * 100)))
    ∧ (closes.length ≤ 1 → (fetch_snapshot t (.ok closes) r2).chg_pct = none)
    ∧ (∀ prev, closes[closes.length - 2]? = some prev → prev = 0 →
        (fetch_snapshot t (.ok closes) r2).chg_pct = none) := by
  refine ⟨?_, ?_, ?_, ?_⟩
  · rw [fetch_snapshot_ok_last, hlast]
    rfl
  · intro prev hlen hprev hnz
    rw [fetch_snapshot_ok_chg, if_pos hlen, hlast, hprev]
    simp [hnz]
  · intro hlen
    rw [fetch_snapshot_ok_chg, if_neg (by omega)]
  · intro prev hprev hz
    rw [fetch_snapshot_ok_chg]
    split
    · rw [hlast, hprev]
      simp [hz]
    · rfl

theorem c7_last_and_change_witness :
    (fetch_snapshot "SPY" (Except.ok [100, 105]) (Except.ok [])).chg_pct = some 5
    ∧ (fetch_snapshot "QQQ" (Except.ok [100]) (Except.ok [])).chg_pct = none := by
  constructor
  · have h := (c7_last_and_change "SPY" [100, 105] 105 (.ok []) rfl).2.1 100
      (by norm_num) rfl (by norm_num)
    rw [h]
    norm_num [round2, pyRound]
  · exact (c7_last_and_change "QQQ" [100] 100 (.ok []) rfl).2.2.1 (by norm_num)

theorem diff_const (a : ℚ) : ∀ l : List ℚ, (∀ x ∈ l, x = a) → ∀ d ∈ diff l, d = 0 := by
  intro l
  induction l with
  | nil => intro _ d hd; simp [diff] at hd
  | cons x l ih =>
    intro hconst d hd
    cases l with
    | nil => simp [diff] at hd
    | cons y l' =>
      rw [diff] at hd
      rcases List.mem_cons.mp hd with h | h
      · have hx : x = a := hconst x (by simp)
        have hy : y = a := hconst y (by simp)
        rw [h, hx, hy]
        ring
      · exact ih (fun z hz => hconst z (List.mem_cons_of_mem _ hz)) d h

theorem rollingMean_pos_of_entry_pos (p : ℕ) (hp : 1 ≤ p) (xs : List ℚ)
    (hnn : ∀ x ∈ xs, 0 ≤ x) (i : ℕ) (hi : i < xs.length) (hpos : 0 < xs[i])
    (hplen : p ≤ xs.length) :
    ∃ (j : ℕ) (hj : j < (rollingMean p xs).length), 0 < (rollingMean p xs)[j] := by
  have hwlen := windows_length p hp xs
  have hrlen := rollingMean_length p xs
  refine ⟨min i (xs.length - p), by omega, ?_⟩
  rw [rollingMean_getElem]
  have hji : min i (xs.length - p) ≤ i := min_le_left _ _
  have hjw : min i (xs.length - p) ≤ xs.length - p := min_le_right _ _
  have hwl : ((xs.drop (min i (xs.length - p))).take p).length = p := by
    rw [List.length_take, List.length_drop]
    omega
  have hkw : i - min i (xs.length - p) < ((xs.drop (min i (xs.length - p))).take p).length := by
    omega
  have he : min i (xs.length - p) + (i - min i (xs.length - p)) = i := by omega
  have hwk : ((xs.drop (min i (xs.length - p))).take p)[i - min i (xs.length - p)] = xs[i] := by
    simp [List.getElem_take, List.getElem_drop, he]
  have hmem : xs[i] ∈ (xs.drop (min i (xs.length - p))).take p := by
    rw [← hwk]
    exact List.getElem_mem hkw
  have hnnw : ∀ x ∈ (xs.drop (min i (xs.length - p))).take p, 0 ≤ x := fun x hx =>
    hnn x ((List.take_subset _ _).trans (List.drop_subset _ _) hx)
  have hsum : xs[i] ≤ ((xs.drop (min i (xs.length - p))).take p).sum :=
    List.single_le_sum hnnw _ hmem
  have hp0 : (0:ℚ) < (p : ℚ) := by exact_mod_cast hp
  exact div_pos (lt_of_lt_of_le hpos hsum) hp0

/-- C10: a series of at least `period+1` equal prices makes every delta
zero, every windowed average gain and loss zero, hence every oscillator
row `NaN`; after `dropna` the series is empty and `compute_rsi` returns
unavailable rather than a number. -/
theorem c10_flat_series_unavailable (close : List ℚ) (period : ℕ) (a : ℚ)
    (hconst : ∀ x ∈ close, x = a) (hl : period + 1 ≤ close.length) :
    compute_rsi close period = none := by
  have hdz : ∀ d ∈ diff close, d = 0 := diff_const a close hconst
  have hgz : ∀ x ∈ gainSeries close, x = 0 := by
    intro x hx
    rcases List.mem_cons.mp hx with h | h
    · exact h
    · rcases List.mem_map.mp h with ⟨d, hd, rfl⟩
      rw [hdz d hd]
      simp [gainFn]
  have hlz : ∀ x ∈ lossSeries close, x = 0 := by
    intro x hx
    rcases List.mem_cons.mp hx with h | h
    · exact h
    · rcases List.mem_map.mp h with ⟨d, hd, rfl⟩
      rw [hdz d hd]
      simp [lossFn]
  have hrg : ∀ m ∈ rollingMean period (gainSeries close), m = 0 := by
    intro m hm
    rcases List.mem_map.mp hm with ⟨w, hw, rfl⟩
    have : w.sum = 0 := List.sum_eq_zero fun x hx =>
      hgz x (subset_of_mem_windows period _ w hw hx)
    rw [this]
    simp
  have hrl : ∀ m ∈ rollingMean period (lossSeries close), m = 0 := by
    intro m hm
    rcases List.mem_map.mp hm with ⟨w, hw, rfl⟩
    have : w.sum = 0 := List.sum_eq_zero fun x hx =>
      hlz x (subset_of_mem_windows period _ w hw hx)
    rw [this]
    simp
  have hrows : ∀ o ∈ rsiSeries close period, o = none := by
    intro o ho
    rcases List.mem_map.mp ho with ⟨pr, hpr, rfl⟩
    have hm := List.of_mem_zip hpr
    rw [hrg pr.1 hm.1, hrl pr.2 hm.2]
    exact rsiRow_none_of_zero
  have hnil : (rsiSeries close period).filterMap id = [] := by
    rw [List.filterMap_eq_nil_iff]
    intro o ho
    rw [hrows o ho]
    rfl
  unfold compute_rsi
  rw [if_neg (by omega), hnil]
  rfl

theorem c10_flat_series_unavailable_witness :
    compute_rsi (List.replicate 15 (100:ℚ)) 14 = none :=
  c10_flat_series_unavailable (List.replicate 15 (100:ℚ)) 14 100
    (fun x hx => List.eq_of_mem_replicate hx) (by simp)

/-- C3: whenever `compute_rsi` returns a value, that value lies in
`[0, 100]`: every surviving oscillator row is either `100 - 100/(1+rs)`
with `rs ≥ 0`, which lies in `[0, 100)`, or the saturation value `100`,
and rounding to 2 decimals keeps `[0, 100]`. -/
theorem c3_bounded (close : List ℚ) (period : ℕ) (v : ℚ)
    (h : compute_rsi close period = some v) : 0 ≤ v ∧ v ≤ 100 := by
  unfold compute_rsi at h
  split at h
  · exact absurd h (by simp)
  · rename_i hguard
    rcases hm : ((rsiSeries close period).filterMap id).getLast? with _ | u
    · rw [hm] at h
      exact absurd h (by simp)
    · rw [hm] at h
      have hv : round2 u = v := by simpa using h
      have humem : u ∈ (rsiSeries close period).filterMap id :=
        List.mem_of_getLast?_eq_some hm
      rcases List.mem_filterMap.mp humem with ⟨o, ho, hid⟩
      have ho' : o = some u := hid
      rcases List.mem_map.mp ho with ⟨pr, hpr, hrow⟩
      have hzm := List.of_mem_zip hpr
      have hg : 0 ≤ pr.1 :=
        rollingMean_nonneg period (gainSeries close) (gainSeries_nonneg close) pr.1 hzm.1
      have hl : 0 ≤ pr.2 :=
        rollingMean_nonneg period (lossSeries close) (lossSeries_nonneg close) pr.2 hzm.2
      have hb := rsiRow_bounds pr.1 pr.2 u hg hl (by rw [hrow, ho'])
      constructor
      · rw [← hv]
        exact round2_nonneg u hb.1
      · rw [← hv]
        exact round2_le_100 u hb.2

theorem c3_bounded_witness : 0 ≤ (100:ℚ) ∧ (100:ℚ) ≤ 100 :=
  c3_bounded [1,2,3,4,5,6,7,8,9,10,11,12,13,14,15] 14 100 (by
    norm_num [compute_rsi, rsiSeries, rollingMean, windows, gainSeries, lossSeries, diff,
      gainFn, lossFn, rsiRow, round2, pyRound])

/-- C2 counterexample: a 15-point series (period 14) in which all prices
are equal is long enough, yet `compute_rsi` returns unavailable, so "a
series of at least period+1 observations yields a defined value" fails
as stated. -/
theorem c2_defined_value_cex :
    (List.replicate 15 (50:ℚ)).length = 15
    ∧ compute_rsi (List.replicate 15 (50:ℚ)) 14 = none := by
  constructor
  · simp
  · norm_num [compute_rsi, rsiSeries, rollingMean, windows, gainSeries, lossSeries, diff,
      gainFn, lossFn, rsiRow, List.replicate]

/-- C2 (amended): `compute_rsi` returns unavailable for every series
shorter than `period+1`, and returns a defined value for a series of at
least `period+1` observations that contains at least one nonzero price
change (a completely flat series instead yields unavailable). -/
theorem c2_availability :
    (∀ (close : List ℚ) (period : ℕ), close.length < period + 1 →
      compute_rsi close period = none)
    ∧ (∀ (close : List ℚ) (period : ℕ), 1 ≤ period → period + 1 ≤ close.length →
      (∃ d ∈ diff close, d ≠ 0) → (compute_rsi close period).isSome) := by
  constructor
  · intro close period h
    unfold compute_rsi
    rw [if_pos h]
  · intro close period hp hl hd
    rcases hd with ⟨d, hdm, hdne⟩
    rcases List.mem_iff_getElem.mp hdm with ⟨i, hi, hie⟩
    have hD := diff_length close
    have hglen := gainSeries_length close
    have hllen := lossSeries_length close
    have hi1g : i + 1 < (gainSeries close).length := by omega
    have hi1l : i + 1 < (lossSeries close).length := by omega
    have hgval : (gainSeries close)[i + 1] = gainFn d := by
      show ((0:ℚ) :: (diff close).map gainFn)[i + 1] = gainFn d
      rw [List.getElem_cons_succ, List.getElem_map, hie]
    have hlval : (lossSeries close)[i + 1] = lossFn d := by
      show ((0:ℚ) :: (diff close).map lossFn)[i + 1] = lossFn d
      rw [List.getElem_cons_succ, List.getElem_map, hie]
    have hper_g : period ≤ (gainSeries close).length := by omega
    have hper_l : period ≤ (lossSeries close).length := by omega
    have hlens : (rollingMean period (gainSeries close)).length
        = (rollingMean period (lossSeries close)).length := by
      rw [rollingMean_length, rollingMean_length, windows_length period hp,
        windows_length period hp]
      omega
    have key : ∃ (j : ℕ) (hjg : j < (rollingMean period (gainSeries close)).length)
        (hjl : j < (rollingMean period (lossSeries close)).length),
        0 < (rollingMean period (gainSeries close))[j]
          ∨ 0 < (rollingMean period (lossSeries close))[j] := by
      rcases lt_trichotomy d 0 with hneg | hzero | hpos
      · have hlp : 0 < (lossSeries close)[i + 1] := by
          rw [hlval]
          simp [lossFn, hneg]
        rcases rollingMean_pos_of_entry_pos period hp (lossSeries close)
          (lossSeries_nonneg close) (i + 1) hi1l hlp hper_l with ⟨j, hj, hjpos⟩
        exact ⟨j, by omega, hj, Or.inr hjpos⟩
      · exact absurd hzero hdne
      · have hgp : 0 < (gainSeries close)[i + 1] := by
          rw [hgval]
          simp [gainFn, hpos]
        rcases rollingMean_pos_of_entry_pos period hp (gainSeries close)
          (gainSeries_nonneg close) (i + 1) hi1g hgp hper_g with ⟨j, hj, hjpos⟩
        exact ⟨j, hj, by omega, Or.inl hjpos⟩
    rcases key with ⟨j, hjg, hjl, hor⟩
    have hrs_len : j < (rsiSeries close period).length := by
      rw [rsiSeries_length]
      omega
    have hrow := rsiSeries_getElem close period j hjg hjl hrs_len
    have hsome : ((rsiSeries close period)[j]).isSome := by
      rw [hrow]
      exact rsiRow_isSome_of_pos _ _ hor
    have hmemo : (rsiSeries close period)[j] ∈ rsiSeries close period :=
      List.getElem_mem hrs_len
    have hne := mem_filterMap_id_of_isSome _ _ hmemo hsome
    have hglast : (((rsiSeries close period).filterMap id).getLast?).isSome :=
      List.getLast?_isSome.mpr hne
    rcases Option.isSome_iff_exists.mp hglast with ⟨u, hu⟩
    unfold compute_rsi
    rw [if_neg (by omega), hu]
    rfl

theorem c2_availability_witness :
    compute_rsi (List.replicate 14 (3:ℚ)) 14 = none
    ∧ (compute_rsi [1,2,2,2,2,2,2,2,2,2,2,2,2,2,2] 14).isSome := by
  constructor
  · exact c2_availability.1 (List.replicate 14 (3:ℚ)) 14 (by simp)
  · exact c2_availability.2 [1,2,2,2,2,2,2,2,2,2,2,2,2,2,2] 14 (by norm_num) (by norm_num)
      ⟨1, by norm_num [diff], by norm_num⟩

/-- C1 counterexample: a 16-point series whose final trailing window of
14 deltas has average loss exactly zero (the single down-move lies
outside that window), yet `compute_rsi` returns 0, not the saturation
value 100: the final row is `0/0 = NaN`, `dropna` removes it, and
`iloc[-1]` picks an earlier row. -/
theorem c1_zero_loss_not_100_cex :
    finalAvgLoss (2 :: List.replicate 15 (1:ℚ)) 14 = 0
    ∧ 14 + 1 ≤ (2 :: List.replicate 15 (1:ℚ)).length
    ∧ compute_rsi (2 :: List.replicate 15 (1:ℚ)) 14 = some 0
    ∧ some (0:ℚ) ≠ some (100:ℚ) := by
  refine ⟨?_, by simp, ?_, by simp⟩
  · norm_num [finalAvgLoss, lastWindowDeltas, diff, lossFn, List.replicate]
  · norm_num [compute_rsi, rsiSeries, rollingMean, windows, gainSeries, lossSeries, diff,
      gainFn, lossFn, rsiRow, round2, pyRound, List.replicate]

/-- C1 (amended): if the final trailing window of `period` deltas has
average loss exactly zero and average gain positive, the division does
not raise (the embedding is total, mirroring the float semantics where
`rs = +inf`) and `compute_rsi` returns the saturation value 100. -/
theorem c1_saturation (close : List ℚ) (period : ℕ) (hp : 1 ≤ period)
    (hl : period + 1 ≤ close.length) (hloss : finalAvgLoss close period = 0)
    (hgain : 0 < finalAvgGain close period) :
    compute_rsi close period = some 100 := by
  have hlast := rsiSeries_getLast? close period hp hl
  rw [hloss] at hlast
  have hrow : rsiRow (finalAvgGain close period) 0 = some 100 := by
    unfold rsiRow
    rw [if_neg (lt_irrefl 0), if_pos hgain]
  rw [hrow] at hlast
  have hfl := filterMap_id_getLast? _ 100 hlast
  unfold compute_rsi
  rw [if_neg (by omega), hfl]
  show some (round2 (100:ℚ)) = some 100
  have hr : round2 (100:ℚ) = 100 := by norm_num [round2, pyRound]
  rw [hr]

theorem c1_saturation_witness :
    compute_rsi [1,2,3,4,5,6,7,8,9,10,11,12,13,14,15,16] 14 = some 100 :=
  c1_saturation [1,2,3,4,5,6,7,8,9,10,11,12,13,14,15,16] 14 (by norm_num) (by norm_num)
    (by norm_num [finalAvgLoss, lastWindowDeltas, diff, lossFn])
    (by norm_num [finalAvgGain, lastWindowDeltas, diff, gainFn])

end MarketPulse
